import Mathlib

/-!
Verification of the `vue-vapor-metrics` benchmark tooling
(`benchmark/scripts/compare-builds.ts`), shallowly embedded in Lean 4.

The embedding follows the TypeScript source: JavaScript numbers that hold
byte counts or deltas become `Int`, version components become `Nat`,
strings stay `String`, the regular expressions of `parseVersion` and
`stripVaporAttribute` are translated to deterministic scanners over
`List Char` that realise exactly the match semantics of the anchored
patterns used in the source, and the file system touched by the source
transform is a total map from path to contents.  Locale- and
floating-point-dependent formatting (`toFixed`, `toLocaleString`,
`toLocaleDateString`) is abstracted into explicit formatter parameters;
no verified claim depends on those strings.
-/

namespace VaporMetrics

/-! ### Version parsing (`parseVersion`) -/

/-- Result shape of `parseVersion` in `compare-builds.ts`. -/
structure ParsedVersion where
  major : Nat
  minor : Nat
  patch : Nat
  prerelease : Option String
  prereleaseNum : Nat
deriving DecidableEq

/-- Evaluation of `parseInt(digits, 10)` on a non-empty run of decimal digits. -/
def parseNatDigits (ds : List Char) : Nat :=
  ds.foldl (fun n c => n * 10 + (c.toNat - 48)) 0

/-- Strip a literal character sequence from the front of the input,
returning the remainder on success (regex literal matching). -/
def dropLit : List Char → List Char → Option (List Char)
  | [], cs => some cs
  | _ :: _, [] => none
  | l :: ls, c :: cs => if c = l then dropLit ls cs else none

/-- The alternation `(alpha|beta|rc)` of the version regex.  The three
branches start with distinct characters, so the regex alternation is
deterministic. -/
def matchTag (cs : List Char) : Option (String × List Char) :=
  match dropLit "alpha".data cs with
  | some rest => some ("alpha", rest)
  | none =>
    match dropLit "beta".data cs with
    | some rest => some ("beta", rest)
    | none =>
      match dropLit "rc".data cs with
      | some rest => some ("rc", rest)
      | none => none

/-- The anchored regex of `parseVersion`:
`^(\d+)\.(\d+)\.(\d+)(?:-(alpha|beta|rc)\.(\d+))?$`.
Returns `none` exactly when the regex does not match. -/
def parseVersionOpt (version : String) : Option ParsedVersion :=
  let cs := version.data
  let ds1 := cs.takeWhile Char.isDigit
  let r1 := cs.dropWhile Char.isDigit
  if ds1.isEmpty then none else
  match r1 with
  | '.' :: r2 =>
    let ds2 := r2.takeWhile Char.isDigit
    let r3 := r2.dropWhile Char.isDigit
    if ds2.isEmpty then none else
    match r3 with
    | '.' :: r4 =>
      let ds3 := r4.takeWhile Char.isDigit
      let r5 := r4.dropWhile Char.isDigit
      if ds3.isEmpty then none else
      match r5 with
      | [] =>
        some ⟨parseNatDigits ds1, parseNatDigits ds2, parseNatDigits ds3, none, 0⟩
      | '-' :: r6 =>
        match matchTag r6 with
        | some (tag, r7) =>
          match r7 with
          | '.' :: r8 =>
            let ds4 := r8.takeWhile Char.isDigit
            let r9 := r8.dropWhile Char.isDigit
            if ds4.isEmpty || !r9.isEmpty then none
            else some ⟨parseNatDigits ds1, parseNatDigits ds2, parseNatDigits ds3,
                       some tag, parseNatDigits ds4⟩
          | _ => none
        | none => none
      | _ => none
    | _ => none
  | _ => none

/-- The fallback value `parseVersion` returns on unparseable input. -/
def sentinelVersion : ParsedVersion := ⟨0, 0, 0, none, 0⟩

/-- Definition `parseVersion` from `compare-builds.ts`: sentinel on no match. -/
def parseVersion (version : String) : ParsedVersion :=
  (parseVersionOpt version).getD sentinelVersion

/-! ### Version comparison (`compareVersions`) -/

/-- The lookup `prereleaseOrder[tag] || 0` against `{alpha:1, beta:2, rc:3}`. -/
def prereleaseOrder (tag : String) : Int :=
  if tag = "alpha" then 1 else if tag = "beta" then 2 else if tag = "rc" then 3 else 0

/-- Body of `compareVersions` after both arguments are parsed. -/
def compareParsed (vA vB : ParsedVersion) : Int :=
  if vA.major ≠ vB.major then (vA.major : Int) - vB.major
  else if vA.minor ≠ vB.minor then (vA.minor : Int) - vB.minor
  else if vA.patch ≠ vB.patch then (vA.patch : Int) - vB.patch
  else
    match vA.prerelease, vB.prerelease with
    | none, some _ => 1
    | some _, none => -1
    | some ta, some tb =>
      if prereleaseOrder ta ≠ prereleaseOrder tb then prereleaseOrder ta - prereleaseOrder tb
      else (vA.prereleaseNum : Int) - (vB.prereleaseNum : Int)
    | none, none => 0

/-- Definition `compareVersions` from `compare-builds.ts`. -/
def compareVersions (a b : String) : Int :=
  compareParsed (parseVersion a) (parseVersion b)

/-! ### A sort key characterising `compareParsed` -/

/-- Prerelease tier used by the comparison: absent prerelease ranks above
every tag (`4` exceeds every value of `prereleaseOrder`). -/
def rankOf : Option String → Int
  | none => 4
  | some t => prereleaseOrder t

/-- Prerelease number as it influences the comparison (ignored when there
is no prerelease, since `compareVersions` returns before reading it). -/
def numOf (v : ParsedVersion) : Int :=
  match v.prerelease with
  | none => 0
  | some _ => (v.prereleaseNum : Int)

/-- Lexicographic strict order on the comparison key of a version. -/
def keyLt (u v : ParsedVersion) : Prop :=
  u.major < v.major ∨ (u.major = v.major ∧
    (u.minor < v.minor ∨ (u.minor = v.minor ∧
      (u.patch < v.patch ∨ (u.patch = v.patch ∧
        (rankOf u.prerelease < rankOf v.prerelease ∨
          (rankOf u.prerelease = rankOf v.prerelease ∧ numOf u < numOf v)))))))

/-- Equality of comparison keys. -/
def keyEq (u v : ParsedVersion) : Prop :=
  u.major = v.major ∧ u.minor = v.minor ∧ u.patch = v.patch ∧
    rankOf u.prerelease = rankOf v.prerelease ∧ numOf u = numOf v

theorem prereleaseOrder_bounds (t : String) :
    0 ≤ prereleaseOrder t ∧ prereleaseOrder t < 4 := by
  unfold prereleaseOrder
  split_ifs <;> norm_num

theorem compareParsed_neg_iff (u v : ParsedVersion) :
    compareParsed u v < 0 ↔ keyLt u v := by
  have hu4 := fun t => prereleaseOrder_bounds t
  unfold compareParsed keyLt
  rcases hpu : u.prerelease with _ | ta <;> rcases hpv : v.prerelease with _ | tb <;>
    simp only [rankOf, numOf, hpu, hpv] <;>
    [skip; have h2 := hu4 tb; have h1 := hu4 ta;
     (have h1 := hu4 ta; have h2 := hu4 tb)] <;>
    split_ifs <;> (try simp only [false_iff, true_iff, true_and, and_true]) <;> omega

theorem compareParsed_zero_iff (u v : ParsedVersion) :
    compareParsed u v = 0 ↔ keyEq u v := by
  have hu4 := fun t => prereleaseOrder_bounds t
  unfold compareParsed keyEq
  rcases hpu : u.prerelease with _ | ta <;> rcases hpv : v.prerelease with _ | tb <;>
    simp only [rankOf, numOf, hpu, hpv] <;>
    [skip; have h2 := hu4 tb; have h1 := hu4 ta;
     (have h1 := hu4 ta; have h2 := hu4 tb)] <;>
    split_ifs <;> (try simp only [false_iff, true_iff, true_and, and_true]) <;> omega

theorem compareParsed_antisymm (u v : ParsedVersion) :
    compareParsed v u = - compareParsed u v := by
  unfold compareParsed
  rcases hpu : u.prerelease with _ | ta <;> rcases hpv : v.prerelease with _ | tb <;>
    simp only [hpu, hpv] <;> split_ifs <;> omega

theorem keyLt_trans {u v w : ParsedVersion} (h1 : keyLt u v) (h2 : keyLt v w) :
    keyLt u w := by
  unfold keyLt at *
  omega

theorem keyLt_keyEq_trans {u v w : ParsedVersion} (h1 : keyLt u v) (h2 : keyEq v w) :
    keyLt u w := by
  unfold keyLt keyEq at *
  omega

theorem keyEq_keyLt_trans {u v w : ParsedVersion} (h1 : keyEq u v) (h2 : keyLt v w) :
    keyLt u w := by
  unfold keyLt keyEq at *
  omega

theorem compareParsed_self (u : ParsedVersion) : compareParsed u u = 0 := by
  rw [compareParsed_zero_iff]
  exact ⟨rfl, rfl, rfl, rfl, rfl⟩

theorem compareParsed_trans_neg {u v w : ParsedVersion}
    (h1 : compareParsed u v < 0) (h2 : compareParsed v w < 0) :
    compareParsed u w < 0 := by
  rw [compareParsed_neg_iff] at *
  exact keyLt_trans h1 h2

theorem compareParsed_trans_nonpos {u v w : ParsedVersion}
    (h1 : compareParsed u v ≤ 0) (h2 : compareParsed v w ≤ 0) :
    compareParsed u w ≤ 0 := by
  rcases lt_or_eq_of_le h1 with h1 | h1
  · rcases lt_or_eq_of_le h2 with h2 | h2
    · exact le_of_lt (compareParsed_trans_neg h1 h2)
    · exact le_of_lt ((compareParsed_neg_iff u w).mpr
        (keyLt_keyEq_trans ((compareParsed_neg_iff u v).mp h1)
          ((compareParsed_zero_iff v w).mp h2)))
  · rcases lt_or_eq_of_le h2 with h2 | h2
    · exact le_of_lt ((compareParsed_neg_iff u w).mpr
        (keyEq_keyLt_trans ((compareParsed_zero_iff u v).mp h1)
          ((compareParsed_neg_iff v w).mp h2)))
    · have e1 := (compareParsed_zero_iff u v).mp h1
      have e2 := (compareParsed_zero_iff v w).mp h2
      have e3 : keyEq u w := by
        unfold keyEq at *
        omega
      exact le_of_eq ((compareParsed_zero_iff u w).mpr e3)

theorem compareVersions_eq_compareParsed {a b : String} {va vb : ParsedVersion}
    (ha : parseVersionOpt a = some va) (hb : parseVersionOpt b = some vb) :
    compareVersions a b = compareParsed va vb := by
  unfold compareVersions parseVersion
  rw [ha, hb]
  rfl

theorem compareVersions_self (a : String) : compareVersions a a = 0 :=
  compareParsed_self (parseVersion a)

theorem compareVersions_antisymm (a b : String) :
    compareVersions b a = - compareVersions a b :=
  compareParsed_antisymm (parseVersion a) (parseVersion b)

theorem compareVersions_trans_neg {a b c : String}
    (h1 : compareVersions a b < 0) (h2 : compareVersions b c < 0) :
    compareVersions a c < 0 :=
  compareParsed_trans_neg h1 h2

theorem compareVersions_trans_nonpos {a b c : String}
    (h1 : compareVersions a b ≤ 0) (h2 : compareVersions b c ≤ 0) :
    compareVersions a c ≤ 0 :=
  compareParsed_trans_nonpos h1 h2

/-- C2 counterexample: `compareVersions` does not return a value in
`{-1, 0, 1}`; on `"3.0.0"` versus `"1.0.0"` it returns the raw major
difference `2`. -/
theorem compareVersions_counterexample_not_tri_valued :
    compareVersions "3.0.0" "1.0.0" = 2 ∧
      ¬(compareVersions "3.0.0" "1.0.0" = -1 ∨ compareVersions "3.0.0" "1.0.0" = 0 ∨
        compareVersions "3.0.0" "1.0.0" = 1) := by
  decide

/-- C2 (amended): `compare(a, b)` returns an integer whose sign encodes the
order rather than a value confined to `{-1, 0, 1}`: it satisfies
`compare(a, a) = 0` and `compare(b, a) = -compare(a, b)`, so a negative,
zero, or positive result answers less-than, equal, or greater-than. -/
theorem compareVersions_sign_contract (a b : String) :
    compareVersions a a = 0 ∧ compareVersions b a = - compareVersions a b :=
  ⟨compareVersions_self a, compareVersions_antisymm a b⟩

/-- C3: on inputs matched by the version pattern, `compare` orders by
major, then minor, then patch numerically; at equal `major.minor.patch`
the version without a prerelease tag is greater; with two prerelease tags
the tag rank `alpha < beta < rc` decides, then the prerelease number,
compared numerically. -/
theorem compareVersions_ordering_rules (a b : String) (va vb : ParsedVersion)
    (ha : parseVersionOpt a = some va) (hb : parseVersionOpt b = some vb) :
    (prereleaseOrder "alpha" < prereleaseOrder "beta" ∧
      prereleaseOrder "beta" < prereleaseOrder "rc")
  ∧ (va.major < vb.major → compareVersions a b < 0)
  ∧ (va.major = vb.major → va.minor < vb.minor → compareVersions a b < 0)
  ∧ (va.major = vb.major → va.minor = vb.minor → va.patch < vb.patch →
       compareVersions a b < 0)
  ∧ (va.major = vb.major → va.minor = vb.minor → va.patch = vb.patch →
       va.prerelease = none → vb.prerelease ≠ none → 0 < compareVersions a b)
  ∧ (∀ ta tb, va.major = vb.major → va.minor = vb.minor → va.patch = vb.patch →
       va.prerelease = some ta → vb.prerelease = some tb →
       prereleaseOrder ta < prereleaseOrder tb → compareVersions a b < 0)
  ∧ (∀ t, va.major = vb.major → va.minor = vb.minor → va.patch = vb.patch →
       va.prerelease = some t → vb.prerelease = some t →
       va.prereleaseNum < vb.prereleaseNum → compareVersions a b < 0) := by
  rw [compareVersions_eq_compareParsed ha hb]
  refine ⟨by decide, ?_, ?_, ?_, ?_, ?_, ?_⟩
  · intro h
    rw [compareParsed_neg_iff]
    unfold keyLt
    omega
  · intro h1 h2
    rw [compareParsed_neg_iff]
    unfold keyLt
    omega
  · intro h1 h2 h3
    rw [compareParsed_neg_iff]
    unfold keyLt
    omega
  · intro h1 h2 h3 h4 h5
    rcases hvb : vb.prerelease with _ | tb
    · exact absurd hvb h5
    · have hb4 := prereleaseOrder_bounds tb
      have : compareParsed vb va < 0 := by
        rw [compareParsed_neg_iff]
        unfold keyLt
        simp only [rankOf, numOf, h4, hvb, true_and, and_true]
        omega
      have := compareParsed_antisymm vb va
      omega
  · intro ta tb h1 h2 h3 h4 h5 h6
    rw [compareParsed_neg_iff]
    unfold keyLt
    simp only [rankOf, numOf, h4, h5, true_and, and_true]
    omega
  · intro t h1 h2 h3 h4 h5 h6
    rw [compareParsed_neg_iff]
    unfold keyLt
    simp only [rankOf, numOf, h4, h5, true_and, and_true]
    omega

/-- Witness for C3 at the documented inputs: the prerelease number is
compared numerically, so `compare("3.6.0-alpha.2", "3.6.0-alpha.10") < 0`. -/
theorem compareVersions_ordering_rules_witness :
    compareVersions "3.6.0-alpha.2" "3.6.0-alpha.10" < 0 := by
  have h := compareVersions_ordering_rules "3.6.0-alpha.2" "3.6.0-alpha.10"
    ⟨3, 6, 0, some "alpha", 2⟩ ⟨3, 6, 0, some "alpha", 10⟩ (by decide) (by decide)
  exact h.2.2.2.2.2.2 "alpha" rfl rfl rfl rfl rfl (by decide)

/-- C5: on version strings accepted by the version pattern, `compare` is a
strict total order: `compare(a, a) = 0`, `compare(a, b)` and
`compare(b, a)` are exact negatives (hence of opposite sign), and
strict negativity is transitive. -/
theorem compareVersions_strict_total_order (a b c : String)
    (_ha : (parseVersionOpt a).isSome = true) (_hb : (parseVersionOpt b).isSome = true)
    (_hc : (parseVersionOpt c).isSome = true) :
    compareVersions a a = 0
  ∧ compareVersions b a = - compareVersions a b
  ∧ (compareVersions a b < 0 → compareVersions b c < 0 → compareVersions a c < 0) :=
  ⟨compareVersions_self a, compareVersions_antisymm a b,
    fun h1 h2 => compareVersions_trans_neg h1 h2⟩

/-- Witness for C5 at `"1.2.3"`, `"1.2.10"`, `"2.0.0-rc.1"`. -/
theorem compareVersions_strict_total_order_witness :
    compareVersions "1.2.3" "1.2.3" = 0
  ∧ compareVersions "1.2.10" "1.2.3" = - compareVersions "1.2.3" "1.2.10"
  ∧ (compareVersions "1.2.3" "1.2.10" < 0 → compareVersions "1.2.10" "2.0.0-rc.1" < 0 →
       compareVersions "1.2.3" "2.0.0-rc.1" < 0) :=
  compareVersions_strict_total_order "1.2.3" "1.2.10" "2.0.0-rc.1"
    (by decide) (by decide) (by decide)

/-- C6: input rejected by the version pattern parses to the sentinel
`{major 0, minor 0, patch 0, no prerelease, prereleaseNum 0}` instead of
failing, so comparing two unparseable strings yields `0`. -/
theorem parseVersion_sentinel_silently_equal (a b : String)
    (ha : parseVersionOpt a = none) (hb : parseVersionOpt b = none) :
    parseVersion a = sentinelVersion ∧ parseVersion b = sentinelVersion ∧
      compareVersions a b = 0 := by
  have pa : parseVersion a = sentinelVersion := by
    unfold parseVersion
    rw [ha]
    rfl
  have pb : parseVersion b = sentinelVersion := by
    unfold parseVersion
    rw [hb]
    rfl
  refine ⟨pa, pb, ?_⟩
  unfold compareVersions
  rw [pa, pb]
  exact compareParsed_self sentinelVersion

/-- Witness for C6 at `"garbage"` and `"1.2"`. -/
theorem parseVersion_sentinel_silently_equal_witness :
    parseVersion "garbage" = sentinelVersion ∧ parseVersion "1.2" = sentinelVersion ∧
      compareVersions "garbage" "1.2" = 0 :=
  parseVersion_sentinel_silently_equal "garbage" "1.2" (by decide) (by decide)

/-! ### Data model and History Store (`writeHistory`) -/

/-- The `mode` field of a benchmark entry. -/
inductive Mode where
  | benchmark
  | inspect
deriving DecidableEq

/-- A `{raw, gzipped}` size record (byte counts as JavaScript numbers). -/
structure SizePair where
  raw : Int
  gzipped : Int
deriving DecidableEq

/-- Structure `BenchmarkEntry` from `compare-builds.ts`. -/
structure BenchmarkEntry where
  timestamp : String
  mode : Mode
  vapor : SizePair
  classic : SizePair
  delta : SizePair
  vueVersion : String
deriving DecidableEq

/-- Structure `BenchmarkHistory` from `compare-builds.ts`. -/
structure BenchmarkHistory where
  benchmarks : List BenchmarkEntry
deriving DecidableEq

/-- The sort comparator of `writeHistory`, as the "keep in this order"
predicate realised by a stable sort: `a` may stay before `b` exactly when
`compareVersions(a.vueVersion, b.vueVersion) <= 0`. -/
def versionLe (a b : BenchmarkEntry) : Bool :=
  decide (compareVersions a.vueVersion b.vueVersion ≤ 0)

/-- Definition `writeHistory` from `compare-builds.ts`: drop every entry carrying the
incoming `vueVersion`, append the new entry, sort by `compareVersions`. -/
def writeHistory (history : BenchmarkHistory) (entry : BenchmarkEntry) : BenchmarkHistory :=
  let remaining := history.benchmarks.filter (fun b => b.vueVersion != entry.vueVersion)
  ⟨(remaining ++ [entry]).mergeSort versionLe⟩

theorem versionLe_trans (a b c : BenchmarkEntry) :
    versionLe a b → versionLe b c → versionLe a c := by
  unfold versionLe
  simp only [decide_eq_true_eq]
  exact compareVersions_trans_nonpos

theorem versionLe_total (a b : BenchmarkEntry) : versionLe a b || versionLe b a := by
  unfold versionLe
  have h := compareVersions_antisymm a.vueVersion b.vueVersion
  simp only [Bool.or_eq_true, decide_eq_true_eq]
  omega

/-- C1: a successful `writeHistory` keeps versions pairwise distinct, keeps
the collection sorted ascending by `compareVersions`, preserves every entry
of a different version while the incoming version ends up represented by
exactly the newly written entry (latest write wins), and the set of stored
versions is the old set plus the written one. -/
theorem writeHistory_invariant (h : BenchmarkHistory) (e : BenchmarkEntry)
    (hu : h.benchmarks.Pairwise (fun a b => a.vueVersion ≠ b.vueVersion)) :
    (writeHistory h e).benchmarks.Pairwise (fun a b => a.vueVersion ≠ b.vueVersion)
  ∧ (writeHistory h e).benchmarks.Pairwise
      (fun a b => compareVersions a.vueVersion b.vueVersion ≤ 0)
  ∧ (writeHistory h e).benchmarks.Perm
      (h.benchmarks.filter (fun b => b.vueVersion != e.vueVersion) ++ [e])
  ∧ (writeHistory h e).benchmarks.filter (fun b => b.vueVersion == e.vueVersion) = [e]
  ∧ (∀ v, v ∈ (writeHistory h e).benchmarks.map (fun b => b.vueVersion) ↔
      (v = e.vueVersion ∨ v ∈ h.benchmarks.map (fun b => b.vueVersion))) := by
  have hperm : (writeHistory h e).benchmarks.Perm
      (h.benchmarks.filter (fun b => b.vueVersion != e.vueVersion) ++ [e]) :=
    List.mergeSort_perm _ versionLe
  have hLne : (h.benchmarks.filter (fun b => b.vueVersion != e.vueVersion) ++ [e]).Pairwise
      (fun a b => a.vueVersion ≠ b.vueVersion) := by
    rw [List.pairwise_append]
    refine ⟨List.Pairwise.sublist (List.filter_sublist _) hu, List.pairwise_singleton _ _, ?_⟩
    intro a ha b hb
    rw [List.mem_singleton] at hb
    subst hb
    have := (List.mem_filter.mp ha).2
    simpa [bne_iff_ne] using this
  refine ⟨?_, ?_, hperm, ?_, ?_⟩
  · exact (hperm.pairwise_iff (fun hxy => Ne.symm hxy)).mpr hLne
  · have hs := List.sorted_mergeSort versionLe_trans versionLe_total
      (h.benchmarks.filter (fun b => b.vueVersion != e.vueVersion) ++ [e])
    exact hs.imp (fun hab => by simpa [versionLe, decide_eq_true_eq] using hab)
  · have hfil : ((h.benchmarks.filter (fun b => b.vueVersion != e.vueVersion)
        ++ [e]).filter (fun b => b.vueVersion == e.vueVersion)) = [e] := by
      rw [List.filter_append]
      have h1 : (h.benchmarks.filter (fun b => b.vueVersion != e.vueVersion)).filter
          (fun b => b.vueVersion == e.vueVersion) = [] := by
        rw [List.filter_eq_nil_iff]
        intro a ha
        have := (List.mem_filter.mp ha).2
        simp only [bne_iff_ne, ne_eq] at this
        simp [this]
      rw [h1]
      simp
    exact List.perm_singleton.mp (hfil ▸ hperm.filter (fun b => b.vueVersion == e.vueVersion))
  · intro v
    rw [(hperm.map (fun b => b.vueVersion)).mem_iff]
    constructor
    · intro hv
      rcases List.mem_map.mp hv with ⟨b, hb, rfl⟩
      rcases List.mem_append.mp hb with hb | hb
      · exact Or.inr (List.mem_map.mpr ⟨b, List.mem_of_mem_filter hb, rfl⟩)
      · rw [List.mem_singleton] at hb
        subst hb
        exact Or.inl rfl
    · intro hv
      rcases hv with rfl | hv
      · exact List.mem_map.mpr ⟨e, List.mem_append.mpr (Or.inr (by simp)), rfl⟩
      · rcases List.mem_map.mp hv with ⟨b, hb, rfl⟩
        by_cases hbe : b.vueVersion = e.vueVersion
        · exact List.mem_map.mpr ⟨e, List.mem_append.mpr (Or.inr (by simp)), hbe.symm⟩
        · refine List.mem_map.mpr ⟨b, List.mem_append.mpr (Or.inl ?_), rfl⟩
          exact List.mem_filter.mpr ⟨hb, by simpa [bne_iff_ne] using hbe⟩

/-- Concrete entry used to exercise `writeHistory`. -/
def entryFirst : BenchmarkEntry :=
  ⟨"2025-01-01T00:00:00.000Z", Mode.benchmark, ⟨58000, 21000⟩, ⟨65000, 26000⟩,
    ⟨-7000, -5000⟩, "3.6.0-alpha.1"⟩

/-- Second write carrying the same `vueVersion` as `entryFirst`. -/
def entrySecond : BenchmarkEntry :=
  ⟨"2025-02-01T00:00:00.000Z", Mode.benchmark, ⟨59000, 21500⟩, ⟨65000, 26000⟩,
    ⟨-6000, -4500⟩, "3.6.0-alpha.1"⟩

/-- A starting history holding `entryFirst` only. -/
def historyOne : BenchmarkHistory := ⟨[entryFirst]⟩

/-- Witness for C1: writing a second entry for `"3.6.0-alpha.1"` over a
history already holding one leaves exactly the new entry for that version. -/
theorem writeHistory_invariant_witness :
    (writeHistory historyOne entrySecond).benchmarks.Pairwise
      (fun a b => a.vueVersion ≠ b.vueVersion)
  ∧ (writeHistory historyOne entrySecond).benchmarks.Pairwise
      (fun a b => compareVersions a.vueVersion b.vueVersion ≤ 0)
  ∧ (writeHistory historyOne entrySecond).benchmarks.Perm
      (historyOne.benchmarks.filter (fun b => b.vueVersion != entrySecond.vueVersion) ++
        [entrySecond])
  ∧ (writeHistory historyOne entrySecond).benchmarks.filter
      (fun b => b.vueVersion == entrySecond.vueVersion) = [entrySecond]
  ∧ (∀ v, v ∈ (writeHistory historyOne entrySecond).benchmarks.map
        (fun b => b.vueVersion) ↔
      (v = entrySecond.vueVersion ∨
        v ∈ historyOne.benchmarks.map (fun b => b.vueVersion))) :=
  writeHistory_invariant historyOne entrySecond (by simp [historyOne])

/-! ### Source transformation (`stripVaporAttribute`) -/

/-- The character class `\s` of JavaScript regular expressions
(ECMAScript WhiteSpace and LineTerminator code points). -/
def isJsWhitespace (c : Char) : Bool :=
  c == '\t' || c == '\n' || c == '\x0B' || c == '\x0C' || c == '\r' || c == ' ' ||
  c == '\u00A0' || c == '\u1680' ||
  (decide (0x2000 ≤ c.toNat) && decide (c.toNat ≤ 0x200A)) ||
  c == '\u2028' || c == '\u2029' || c == '\u202F' || c == '\u205F' || c == '\u3000' ||
  c == '\uFEFF'

/-- Attempt of the outer pattern `<script\\s+setup[^>]*?>` at the head of
the input: literal `<script`, one or more whitespace, literal `setup`, a
lazy run of non-`>` characters, `>`.  Returns the matched slice and the
remainder.  The pattern is deterministic: `setup` starts with a
non-whitespace character, so the greedy `\\s+` cannot trade characters
with it, and the lazy `[^>]*?>` stops at the first `>` (so the character
`dropWhile` stops at is `>` whenever one exists). -/
def scriptTagAt (cs : List Char) : Option (List Char × List Char) :=
  match dropLit "<script".data cs with
  | none => none
  | some r1 =>
    if (r1.takeWhile isJsWhitespace).isEmpty then none else
    match dropLit "setup".data (r1.dropWhile isJsWhitespace) with
    | none => none
    | some r3 =>
      match r3.dropWhile (fun c => c != '>') with
      | c :: rest =>
        if c = '>' then
          some ("<script".data ++ r1.takeWhile isJsWhitespace ++ "setup".data ++
            r3.takeWhile (fun c => c != '>') ++ ['>'], rest)
        else none
      | [] => none

/-- Attempt of the inner pattern `\\s+vapor(?=\\s|>)` at the head of the
input: one or more whitespace then literal `vapor`, with a character that
is whitespace or `>` looked ahead but not consumed.  Returns the input
part following the matched (to-be-deleted) slice. -/
def vaporMatchAt (cs : List Char) : Option (List Char) :=
  if (cs.takeWhile isJsWhitespace).isEmpty then none else
  match dropLit "vapor".data (cs.dropWhile isJsWhitespace) with
  | some (c :: r2) => if isJsWhitespace c || c == '>' then some (c :: r2) else none
  | _ => none

/-- Evaluation of `m.replace(/\\s+vapor(?=\\s|>)/, '')`: delete the leftmost match of
the inner pattern, if any (`getD` keeps scanning when the pattern does not
match at the current position). -/
def removeVaporFirst : List Char → List Char
  | [] => []
  | c :: cs => (vaporMatchAt (c :: cs)).getD (c :: removeVaporFirst cs)

/-- Evaluation of `source.replace(/<script\\s+setup[^>]*?>/, m => ...)`: rewrite the
leftmost match of the outer pattern with the inner deletion applied to the
matched slice, if any. -/
def replaceFirstScriptTag : List Char → List Char
  | [] => []
  | c :: cs =>
    ((scriptTagAt (c :: cs)).map (fun p => removeVaporFirst p.1 ++ p.2)).getD
      (c :: replaceFirstScriptTag cs)

/-- Definition `stripVaporAttribute` from `compare-builds.ts`. -/
def stripVaporAttribute (source : String) : String :=
  ⟨replaceFirstScriptTag source.data⟩

theorem dropLit_some : ∀ {lit cs r : List Char}, dropLit lit cs = some r → cs = lit ++ r
  | [], _, _, h => by simpa [dropLit] using h
  | l :: ls, [], r, h => by simp [dropLit] at h
  | l :: ls, c :: cs, r, h => by
    unfold dropLit at h
    split_ifs at h with hc
    · subst hc
      rw [List.cons_append]
      exact congrArg (List.cons c) (dropLit_some h)

theorem vaporMatchAt_some {s r : List Char} (h : vaporMatchAt s = some r) :
    ∃ ws, s = ws ++ ("vapor".data ++ r) ∧ ws ≠ [] ∧ ws.all isJsWhitespace := by
  unfold vaporMatchAt at h
  split_ifs at h with hws
  refine ⟨s.takeWhile isJsWhitespace, ?_, ?_, ?_⟩
  · rcases hd : dropLit "vapor".data (s.dropWhile isJsWhitespace) with _ | (_ | ⟨c, r3⟩) <;>
      simp only [hd] at h
    · cases h
    · cases h
    · split_ifs at h with hg
      have hr : r = c :: r3 := by simpa using h.symm
      subst hr
      rw [← dropLit_some hd]
      exact (List.takeWhile_append_dropWhile _ _).symm
  · simpa [List.isEmpty_iff] using hws
  · rw [List.all_eq_true]
    exact fun c hc => List.mem_takeWhile_imp hc

theorem scriptTagAt_some {s m rest : List Char} (h : scriptTagAt s = some (m, rest)) :
    s = m ++ rest := by
  unfold scriptTagAt at h
  rcases h7 : dropLit "<script".data s with _ | r1
  · simp only [h7] at h
    cases h
  · simp only [h7] at h
    split_ifs at h with hws
    rcases h5 : dropLit "setup".data (r1.dropWhile isJsWhitespace) with _ | r3
    · simp only [h5] at h
      cases h
    · simp only [h5] at h
      rcases h4 : r3.dropWhile (fun c => c != '>') with _ | ⟨c4, r5⟩
      · simp only [h4] at h
        cases h
      · simp only [h4] at h
        split_ifs at h with hc4
        subst hc4
        simp only [Option.some.injEq, Prod.mk.injEq] at h
        rcases h with ⟨hm, hrest⟩
        subst hm
        subst hrest
        have e3 : r3.takeWhile (fun c => c != '>') ++ ('>' :: r5) = r3 := by
          rw [← h4]
          exact List.takeWhile_append_dropWhile _ _
        rw [dropLit_some h7]
        conv_lhs => rw [← List.takeWhile_append_dropWhile isJsWhitespace r1]
        conv_lhs => rw [dropLit_some h5]
        conv_lhs => rw [← e3]
        simp [List.append_assoc]

theorem replaceFirstScriptTag_no_match {cs : List Char}
    (h : ∀ i, scriptTagAt (cs.drop i) = none) : replaceFirstScriptTag cs = cs := by
  induction cs with
  | nil => rfl
  | cons c cs ih =>
    have h0 := h 0
    rw [List.drop_zero] at h0
    rw [replaceFirstScriptTag, h0,
      ih (fun i => by simpa [List.drop_succ_cons] using h (i + 1))]
    rfl

theorem replaceFirstScriptTag_first {pre suf m rest : List Char}
    (hpre : ∀ i, i < pre.length → scriptTagAt ((pre ++ suf).drop i) = none)
    (hmatch : scriptTagAt suf = some (m, rest)) :
    replaceFirstScriptTag (pre ++ suf) = pre ++ (removeVaporFirst m ++ rest) := by
  induction pre with
  | nil =>
    rcases suf with _ | ⟨c, cs⟩
    · rw [show scriptTagAt ([] : List Char) = none from rfl] at hmatch
      cases hmatch
    · rw [List.nil_append, List.nil_append, replaceFirstScriptTag, hmatch]
      rfl
  | cons p pre ih =>
    have h0 := hpre 0 (by simp)
    rw [List.cons_append, List.drop_zero] at h0
    rw [List.cons_append, replaceFirstScriptTag, h0,
      ih (fun i hi => by
        have := hpre (i + 1) (by simpa using Nat.succ_lt_succ hi)
        simpa [List.cons_append, List.drop_succ_cons] using this)]
    rfl

theorem removeVaporFirst_no_match {m : List Char}
    (h : ∀ i, vaporMatchAt (m.drop i) = none) : removeVaporFirst m = m := by
  induction m with
  | nil => rfl
  | cons c cs ih =>
    have h0 := h 0
    rw [List.drop_zero] at h0
    rw [removeVaporFirst, h0,
      ih (fun i => by simpa [List.drop_succ_cons] using h (i + 1))]
    rfl

theorem removeVaporFirst_first {p s r : List Char}
    (hp : ∀ i, i < p.length → vaporMatchAt ((p ++ s).drop i) = none)
    (hm : vaporMatchAt s = some r) :
    removeVaporFirst (p ++ s) = p ++ r := by
  induction p with
  | nil =>
    rcases s with _ | ⟨c, cs⟩
    · rw [show vaporMatchAt ([] : List Char) = none from rfl] at hm
      cases hm
    · rw [List.nil_append, List.nil_append, removeVaporFirst, hm]
      rfl
  | cons q p ih =>
    have h0 := hp 0 (by simp)
    rw [List.cons_append, List.drop_zero] at h0
    rw [List.cons_append, removeVaporFirst, h0,
      ih (fun i hi => by
        have := hp (i + 1) (by simpa using Nat.succ_lt_succ hi)
        simpa [List.cons_append, List.drop_succ_cons] using this)]
    rfl

/-- C7: the transform is a single substitution.  When no position of the
source matches the script-setup marker pattern, the output is
byte-identical.  Otherwise, writing the source as `pre ++ suf` with the
leftmost marker match starting `suf`, the matched tag is `m` with
`suf = m ++ rest`, the output is `pre ++ (deleted-from m) ++ rest` — so
text outside the first marker tag, `vapor` occurrences included, is
untouched — and inside the tag at most one slice is deleted: none when no
position of `m` matches the attribute pattern, otherwise exactly the
leftmost whitespace-run-plus-`vapor` token, everything else kept. -/
theorem stripVaporAttribute_single_substitution (source : String) :
    ((∀ i, scriptTagAt (source.data.drop i) = none) →
        stripVaporAttribute source = source)
  ∧ (∀ pre suf m rest, source.data = pre ++ suf →
      (∀ i, i < pre.length → scriptTagAt (source.data.drop i) = none) →
      scriptTagAt suf = some (m, rest) →
        suf = m ++ rest
      ∧ (stripVaporAttribute source).data = pre ++ (removeVaporFirst m ++ rest)
      ∧ ((∀ j, vaporMatchAt (m.drop j) = none) → removeVaporFirst m = m)
      ∧ (∀ p s r, m = p ++ s →
          (∀ j, j < p.length → vaporMatchAt (m.drop j) = none) →
          vaporMatchAt s = some r →
            ∃ ws, s = ws ++ ("vapor".data ++ r) ∧ ws ≠ [] ∧ ws.all isJsWhitespace
              ∧ removeVaporFirst m = p ++ r)) := by
  obtain ⟨cs⟩ := source
  constructor
  · intro h
    exact congrArg String.mk (replaceFirstScriptTag_no_match h)
  · intro pre suf m rest hsplit hpre hmatch
    have hcs : cs = pre ++ suf := hsplit
    subst hcs
    refine ⟨scriptTagAt_some hmatch, ?_, ?_, ?_⟩
    · exact replaceFirstScriptTag_first hpre hmatch
    · exact removeVaporFirst_no_match
    · intro p s r hms hpj hvr
      obtain ⟨ws, hws, hwsne, hwsall⟩ := vaporMatchAt_some hvr
      subst hms
      exact ⟨ws, hws, hwsne, hwsall, removeVaporFirst_first hpj hvr⟩

/-- Witness for C7 on `"x<script setup vapor>y vapor z"`: the leftmost
marker tag starts after the one-character prefix, and the text around the
tag survives verbatim. -/
theorem stripVaporAttribute_single_substitution_witness :
    "x<script setup vapor>y vapor z".data =
        "x".data ++ "<script setup vapor>y vapor z".data
  ∧ (stripVaporAttribute "x<script setup vapor>y vapor z").data =
      "x".data ++ (removeVaporFirst "<script setup vapor>".data ++ "y vapor z".data) := by
  have h := (stripVaporAttribute_single_substitution "x<script setup vapor>y vapor z").2
    "x".data "<script setup vapor>y vapor z".data
    "<script setup vapor>".data "y vapor z".data
    (by decide) (by decide) (by decide)
  exact ⟨by decide, h.2.1⟩

/-! ### Tracked files, transform application and restore -/

/-- The file system visible to the script: a total map from
project-root-relative path to file contents. -/
def FS : Type := String → String

/-- Definition `write(relPath, content)` from `compare-builds.ts`. -/
def fsWrite (fs : FS) (relPath content : String) : FS :=
  fun q => if q = relPath then content else fs q

/-- Definition `trackedFiles` from `compare-builds.ts`. -/
def trackedFiles : List String :=
  ["example/src/main.ts", "example/src/App.vue", "example/src/components/HelloWorld.vue"]

/-- The startup loop filling the `originals` map: one `(path, contents)`
pair per tracked file, read before any transform runs. -/
def captureOriginals (fs : FS) : List (String × String) :=
  trackedFiles.map (fun rel => (rel, fs rel))

/-- The fixed replacement for `example/src/main.ts`, lines joined by
newline exactly as in `applyClassicTransforms`. -/
def classicMainTs : String :=
  String.intercalate "\n"
    ["import './style.css'",
     "import { createApp } from 'vue'",
     "import App from './App.vue'",
     "",
     "// Classic Vue runtime build used for comparisons.",
     "createApp(App).mount('#app')",
     ""]

/-- Definition `applyClassicTransforms` from `compare-builds.ts`: replace the entry
point wholesale, then strip the vapor attribute from both components. -/
def applyClassicTransforms (fs : FS) : FS :=
  List.foldl (fun f file => fsWrite f file (stripVaporAttribute (f file)))
    (fsWrite fs "example/src/main.ts" classicMainTs)
    ["example/src/App.vue", "example/src/components/HelloWorld.vue"]

/-- Definition `restoreSources` from `compare-builds.ts`: write every captured
original back, in map insertion order. -/
def restoreSources (originals : List (String × String)) (fs : FS) : FS :=
  originals.foldl (fun f pc => fsWrite f pc.1 pc.2) fs

/-- C4: for every initial contents of the tracked files, `restoreSources`
run after `applyClassicTransforms` reproduces the pre-transform contents
byte for byte on every tracked file — also on files the transform did not
change. -/
theorem restore_after_transform_roundtrip (fs0 : FS) (p : String)
    (hp : p ∈ trackedFiles) :
    restoreSources (captureOriginals fs0) (applyClassicTransforms fs0) p = fs0 p := by
  simp only [trackedFiles, List.mem_cons, List.not_mem_nil, or_false] at hp
  rcases hp with rfl | rfl | rfl <;>
    simp [restoreSources, captureOriginals, trackedFiles, fsWrite]

/-- Witness for C4 at a file system holding `"x"` everywhere, read back at
`"example/src/App.vue"`. -/
theorem restore_after_transform_roundtrip_witness :
    restoreSources (captureOriginals (fun _ => "x"))
        (applyClassicTransforms (fun _ => "x")) "example/src/App.vue" =
      (fun _ : String => "x") "example/src/App.vue" :=
  restore_after_transform_roundtrip (fun _ => "x") "example/src/App.vue"
    (by simp [trackedFiles])

/-! ### Report generation (`generateMarkdownReport`) and `writeReport` -/

/-- Constant `TREND_THRESHOLD_BYTES` from `compare-builds.ts`. -/
def TREND_THRESHOLD_BYTES : Int := 100

/-- Constant `HISTORY_DISPLAY_LIMIT` from `compare-builds.ts`. -/
def HISTORY_DISPLAY_LIMIT : Nat := 10

/-- Locale- and floating-point-dependent formatting of the source,
abstracted into opaque-to-the-claims string producers: `formatKB`,
`new Date(ts).toLocaleString()`, `new Date(ts).toLocaleDateString()`,
`Number.prototype.toLocaleString`, and the `toFixed(2)` compression
quotient of two byte counts. -/
structure ReportFormatters where
  fmtKB : Int → String
  fmtDateTime : String → String
  fmtDate : String → String
  fmtLocaleInt : Int → String
  fmtQuotient : Int → Int → String

/-- Evaluation of `history.benchmarks.filter(b => b.mode === 'benchmark').slice(-10).reverse()`
(`slice(-n)` keeps the last `n` elements, all of them when fewer exist). -/
def recentBenchmarks (history : BenchmarkHistory) : List BenchmarkEntry :=
  ((history.benchmarks.filter (fun b => b.mode == Mode.benchmark)).drop
    ((history.benchmarks.filter (fun b => b.mode == Mode.benchmark)).length -
      HISTORY_DISPLAY_LIMIT)).reverse

/-- Trend column of one history row: every row but the last displayed one
compares its entry against the next-older displayed entry by Vapor gzipped
size with the `TREND_THRESHOLD_BYTES` dead band; the last displayed row
keeps the initial em-dash. -/
def trendCell (recent : List BenchmarkEntry) (idx : Nat) (entry : BenchmarkEntry) : String :=
  if idx < recent.length - 1 then
    match recent[idx + 1]? with
    | some prev =>
      if entry.vapor.gzipped - prev.vapor.gzipped < -TREND_THRESHOLD_BYTES then "↓ Improving"
      else if entry.vapor.gzipped - prev.vapor.gzipped > TREND_THRESHOLD_BYTES then "↑ Regressing"
      else "→ Stable"
    | none => "—"
  else "—"

/-- One line pushed per entry by the history `forEach`. -/
def renderHistoryRow (F : ReportFormatters) (recent : List BenchmarkEntry)
    (idx : Nat) (entry : BenchmarkEntry) : String :=
  "| " ++ F.fmtDate entry.timestamp ++ " | " ++ entry.vueVersion ++ " | " ++
    F.fmtKB entry.vapor.gzipped ++ " | " ++ F.fmtKB entry.classic.gzipped ++ " | " ++
    (if entry.delta.gzipped > 0 then "+" ++ F.fmtKB entry.delta.gzipped
     else F.fmtKB entry.delta.gzipped) ++ " | " ++
    trendCell recent idx entry ++ " |"

/-- All rows of the history table, in display order with their indices. -/
def historyRows (F : ReportFormatters) (recent : List BenchmarkEntry) : List String :=
  recent.enum.map (fun p => renderHistoryRow F recent p.1 p.2)

/-- Table header and rows, pushed only when at least one row exists. -/
def historyTableBlock (F : ReportFormatters) (recent : List BenchmarkEntry) : List String :=
  if 0 < recent.length then
    ["| Date | Vue Version | Vapor (gzipped) | Classic (gzipped) | Delta | Trend |",
     "|------|-------------|-----------------|-------------------|-------|-------|"] ++
    historyRows F recent
  else []

/-- The `deltaLabel` string of the current-build section. -/
def deltaLabel (F : ReportFormatters) (delta : Int) : String :=
  if delta = 0 then "0 KB (equal)"
  else (if delta > 0 then "+" else "") ++ F.fmtKB (delta.natAbs : Int) ++ " (" ++
    (if delta > 0 then "Vapor larger" else "Vapor smaller") ++ ")"

/-- One row of the current-build table. -/
def currentRow (F : ReportFormatters) (label : String) (sp : SizePair) : String :=
  "| " ++ label ++ " | " ++ F.fmtKB sp.raw ++ " (" ++ F.fmtLocaleInt sp.raw ++
    " bytes) | " ++ F.fmtKB sp.gzipped ++ " (" ++ F.fmtLocaleInt sp.gzipped ++
    " bytes) | " ++ F.fmtQuotient sp.raw sp.gzipped ++ "x |"

/-- The unconditional head block of the report. -/
def currentBuildLines (F : ReportFormatters) (current : BenchmarkEntry) : List String :=
  ["# Build Benchmark Report",
   "",
   "**Generated**: " ++ F.fmtDateTime current.timestamp,
   "**Vue Version**: " ++ current.vueVersion,
   "**Mode**: " ++ (if current.mode = Mode.inspect then "Inspection (readable)"
     else "Production benchmark"),
   "",
   "## Current Build",
   "",
   "| Build | Raw Size | Gzipped | Compression Ratio |",
   "|-------|----------|---------|-------------------|",
   currentRow F "Vapor" current.vapor,
   currentRow F "Classic" current.classic,
   "",
   "**Delta (Vapor - Classic)**: " ++ deltaLabel F current.delta.gzipped]

/-- The unconditional tail block of the report. -/
def commandsLines : List String :=
  ["",
   "## Commands",
   "",
   "```bash",
   "npm run benchmark         # Run production benchmark",
   "npm run benchmark:inspect # Generate readable build for inspection",
   "```",
   ""]

/-- The lines of `generateMarkdownReport`, in push order. -/
def generateMarkdownLines (F : ReportFormatters) (current : BenchmarkEntry)
    (history : BenchmarkHistory) : List String :=
  currentBuildLines F current ++
  (if current.mode ≠ Mode.inspect ∧ 0 < history.benchmarks.length then
    ["", "## Recent History", ""] ++ historyTableBlock F (recentBenchmarks history)
   else []) ++
  commandsLines

/-- Definition `generateMarkdownReport` from `compare-builds.ts`: the pushed lines
joined by newline. -/
def generateMarkdownReport (F : ReportFormatters) (current : BenchmarkEntry)
    (history : BenchmarkHistory) : String :=
  String.intercalate "\n" (generateMarkdownLines F current history)

/-- Definition `writeReport` from `compare-builds.ts`, as a transition on the
persisted history: build the entry from measured sizes, current time and
the manifest version, write it to history unless inspecting, and render
the report against the history as re-read after the optional write. -/
def writeReport (isInspectMode : Bool) (timestamp vueVersion : String)
    (vaporSize classicSize vaporGzip classicGzip : Int)
    (F : ReportFormatters) (history0 : BenchmarkHistory) : BenchmarkHistory × String :=
  let entry : BenchmarkEntry :=
    ⟨timestamp, if isInspectMode then Mode.inspect else Mode.benchmark,
      ⟨vaporSize, vaporGzip⟩, ⟨classicSize, classicGzip⟩,
      ⟨vaporSize - classicSize, vaporGzip - classicGzip⟩, vueVersion⟩
  let history1 := if isInspectMode then history0 else writeHistory history0 entry
  (history1, generateMarkdownReport F entry history1)

/-- C8: an inspect-mode run never invokes the history write, so the stored
collection after `writeReport` equals the stored collection before it. -/
theorem inspect_mode_preserves_history (flag : Bool) (ts vv : String)
    (vs cs vg cg : Int) (F : ReportFormatters) (h0 : BenchmarkHistory)
    (hflag : flag = true) :
    (writeReport flag ts vv vs cs vg cg F h0).1 = h0 := by
  subst hflag
  rfl

/-- Witness for C8 at concrete inputs. -/
theorem inspect_mode_preserves_history_witness :
    (writeReport true "2025-03-01T00:00:00.000Z" "3.6.0-alpha.3" 58000 65000 21000 26000
        ⟨fun _ => "", fun _ => "", fun _ => "", fun _ => "", fun _ _ => ""⟩
        ⟨[]⟩).1 = ⟨[]⟩ :=
  inspect_mode_preserves_history true "2025-03-01T00:00:00.000Z" "3.6.0-alpha.3"
    58000 65000 21000 26000
    ⟨fun _ => "", fun _ => "", fun _ => "", fun _ => "", fun _ _ => ""⟩ ⟨[]⟩ rfl

/-- C9: with a non-inspect current entry, the report's history section
shows at most the `HISTORY_DISPLAY_LIMIT` (ten) most recent benchmark-mode
entries, newest first (the displayed list, reversed, is a suffix of the
benchmark-mode history); every displayed row except the last compares its
entry against the next-older displayed entry by Vapor gzipped size with
the strict 100-byte dead band; the oldest displayed row carries the
trendless em-dash even when older history exists; and the rows appear
verbatim inside the rendered line list. -/
theorem report_history_window (F : ReportFormatters) (current : BenchmarkEntry)
    (history : BenchmarkHistory) (hmode : current.mode ≠ Mode.inspect) :
    (recentBenchmarks history).length =
        min (history.benchmarks.filter (fun b => b.mode == Mode.benchmark)).length
          HISTORY_DISPLAY_LIMIT
  ∧ (∃ older, history.benchmarks.filter (fun b => b.mode == Mode.benchmark) =
      older ++ (recentBenchmarks history).reverse)
  ∧ (∀ idx entry prev, (recentBenchmarks history)[idx + 1]? = some prev →
        trendCell (recentBenchmarks history) idx entry =
          (if entry.vapor.gzipped - prev.vapor.gzipped < -TREND_THRESHOLD_BYTES then
            "↓ Improving"
          else if entry.vapor.gzipped - prev.vapor.gzipped > TREND_THRESHOLD_BYTES then
            "↑ Regressing"
          else "→ Stable"))
  ∧ (∀ entry, trendCell (recentBenchmarks history)
        ((recentBenchmarks history).length - 1) entry = "—")
  ∧ (0 < history.benchmarks.length → 0 < (recentBenchmarks history).length →
      ∃ pre post, generateMarkdownLines F current history =
        pre ++ historyRows F (recentBenchmarks history) ++ post) := by
  refine ⟨?_, ?_, ?_, ?_, ?_⟩
  · unfold recentBenchmarks
    rw [List.length_reverse, List.length_drop]
    omega
  · refine ⟨(history.benchmarks.filter (fun b => b.mode == Mode.benchmark)).take
      ((history.benchmarks.filter (fun b => b.mode == Mode.benchmark)).length -
        HISTORY_DISPLAY_LIMIT), ?_⟩
    unfold recentBenchmarks
    rw [List.reverse_reverse, List.take_append_drop]
  · intro idx entry prev hprev
    have hlen : idx + 1 < (recentBenchmarks history).length :=
      (List.getElem?_eq_some_iff.mp hprev).1
    unfold trendCell
    rw [if_pos (by omega), hprev]
  · intro entry
    unfold trendCell
    rw [if_neg (by omega)]
  · intro h1 h2
    unfold generateMarkdownLines historyTableBlock
    rw [if_pos ⟨hmode, h1⟩, if_pos h2]
    refine ⟨currentBuildLines F current ++
      (["", "## Recent History", ""] ++
        ["| Date | Vue Version | Vapor (gzipped) | Classic (gzipped) | Delta | Trend |",
         "|------|-------------|-----------------|-------------------|-------|-------|"]),
      commandsLines, ?_⟩
    simp [List.append_assoc]

/-- Formatter stub used by the report witnesses. -/
def reportFmtStub : ReportFormatters :=
  ⟨fun _ => "kb", fun _ => "dt", fun _ => "d", fun _ => "n", fun _ _ => "q"⟩

/-- Older benchmark-mode entry of the witness history. -/
def entryOlder : BenchmarkEntry :=
  ⟨"2025-01-01T00:00:00.000Z", Mode.benchmark, ⟨58000, 21000⟩, ⟨65000, 26000⟩,
    ⟨-7000, -5000⟩, "3.6.0-alpha.1"⟩

/-- Newer benchmark-mode entry of the witness history, whose Vapor gzipped
size exceeds the older one by more than the 100-byte threshold. -/
def entryNewer : BenchmarkEntry :=
  ⟨"2025-02-01T00:00:00.000Z", Mode.benchmark, ⟨59000, 21500⟩, ⟨65000, 26000⟩,
    ⟨-6000, -4500⟩, "3.6.0-alpha.2"⟩

/-- An inspect-mode entry that the history table must filter out. -/
def entryInspect : BenchmarkEntry :=
  ⟨"2025-02-02T00:00:00.000Z", Mode.inspect, ⟨99000, 40000⟩, ⟨99000, 40000⟩,
    ⟨0, 0⟩, "3.6.0-alpha.2"⟩

/-- Witness history: two benchmark entries and one inspect entry. -/
def historyWitness : BenchmarkHistory := ⟨[entryOlder, entryNewer, entryInspect]⟩

/-- Witness for C9: over `historyWitness` the newest displayed row is
classified Regressing against the next-older displayed row, and the oldest
displayed row has no trend. -/
theorem report_history_window_witness :
    trendCell (recentBenchmarks historyWitness) 0 entryNewer = "↑ Regressing"
  ∧ trendCell (recentBenchmarks historyWitness)
      ((recentBenchmarks historyWitness).length - 1) entryOlder = "—" := by
  have h := report_history_window reportFmtStub entryNewer historyWitness (by decide)
  constructor
  · rw [h.2.2.1 0 entryNewer entryOlder (by decide)]
    decide
  · exact h.2.2.2.1 entryOlder

/-- C10: the trend annotation of a displayed row that has a next-older
displayed row is a function of the two entries' Vapor gzipped sizes only —
the `delta` field, the raw sizes and the Classic sizes do not enter — and
it equals the threshold classification of
`entry.vapor.gzipped - prev.vapor.gzipped`. -/
theorem trend_uses_vapor_gzipped_only
    (recentA recentB : List BenchmarkEntry) (idxA idxB : Nat)
    (entryA prevA entryB prevB : BenchmarkEntry)
    (hA : recentA[idxA + 1]? = some prevA) (hB : recentB[idxB + 1]? = some prevB)
    (hv : entryA.vapor.gzipped = entryB.vapor.gzipped)
    (hp : prevA.vapor.gzipped = prevB.vapor.gzipped) :
    trendCell recentA idxA entryA = trendCell recentB idxB entryB
  ∧ trendCell recentA idxA entryA =
      (if entryA.vapor.gzipped - prevA.vapor.gzipped < -TREND_THRESHOLD_BYTES then
        "↓ Improving"
      else if entryA.vapor.gzipped - prevA.vapor.gzipped > TREND_THRESHOLD_BYTES then
        "↑ Regressing"
      else "→ Stable") := by
  have hlenA : idxA + 1 < recentA.length := (List.getElem?_eq_some_iff.mp hA).1
  have hlenB : idxB + 1 < recentB.length := (List.getElem?_eq_some_iff.mp hB).1
  have eA : trendCell recentA idxA entryA =
      (if entryA.vapor.gzipped - prevA.vapor.gzipped < -TREND_THRESHOLD_BYTES then
        "↓ Improving"
      else if entryA.vapor.gzipped - prevA.vapor.gzipped > TREND_THRESHOLD_BYTES then
        "↑ Regressing"
      else "→ Stable") := by
    unfold trendCell
    rw [if_pos (by omega), hA]
  have eB : trendCell recentB idxB entryB =
      (if entryB.vapor.gzipped - prevB.vapor.gzipped < -TREND_THRESHOLD_BYTES then
        "↓ Improving"
      else if entryB.vapor.gzipped - prevB.vapor.gzipped > TREND_THRESHOLD_BYTES then
        "↑ Regressing"
      else "→ Stable") := by
    unfold trendCell
    rw [if_pos (by omega), hB]
  refine ⟨?_, eA⟩
  rw [eA, eB, hv, hp]

/-- Variant of `entryNewer` with scrambled delta, raw and Classic fields
but the same Vapor gzipped size. -/
def entryNewerScrambled : BenchmarkEntry :=
  ⟨"2025-02-05T00:00:00.000Z", Mode.benchmark, ⟨1, 21500⟩, ⟨2, 3⟩,
    ⟨123456, -999⟩, "9.9.9"⟩

/-- Variant of `entryOlder` with scrambled delta, raw and Classic fields
but the same Vapor gzipped size. -/
def entryOlderScrambled : BenchmarkEntry :=
  ⟨"2025-01-05T00:00:00.000Z", Mode.benchmark, ⟨7, 21000⟩, ⟨8, 9⟩,
    ⟨-424242, 777⟩, "8.8.8"⟩

/-- Witness for C10: scrambling every field except `vapor.gzipped` leaves
the trend unchanged. -/
theorem trend_uses_vapor_gzipped_only_witness :
    trendCell [entryNewer, entryOlder] 0 entryNewer =
        trendCell [entryNewerScrambled, entryOlderScrambled] 0 entryNewerScrambled
  ∧ trendCell [entryNewer, entryOlder] 0 entryNewer =
      (if entryNewer.vapor.gzipped - entryOlder.vapor.gzipped < -TREND_THRESHOLD_BYTES then
        "↓ Improving"
      else if entryNewer.vapor.gzipped - entryOlder.vapor.gzipped > TREND_THRESHOLD_BYTES then
        "↑ Regressing"
      else "→ Stable") :=
  trend_uses_vapor_gzipped_only [entryNewer, entryOlder]
    [entryNewerScrambled, entryOlderScrambled] 0 0
    entryNewer entryOlder entryNewerScrambled entryOlderScrambled
    (by decide) (by decide) (by decide) (by decide)

end VaporMetrics
